import Mathlib

/-!
Verification of the Graz-restaurant scraping pipeline.

This file shallowly embeds the pipeline's pure core — the Overpass retry
loop, the OSM tag parsers, deduplication, the website matcher's scoring and
gating, and the menu-extraction cascade — as executable Lean definitions,
and proves the spec's testable properties about them.

Python strings are modelled as `List Char` (`Str`); Python dicts whose keys
matter are modelled as association lists with Python's update-in-place
semantics.  External collaborators (HTTP, BeautifulSoup parsing, `urlparse`,
the search index, the vision model) are modelled as explicit inputs/oracles.
-/

namespace RestaurantsRag

/-- Python strings, modelled as their character sequences. -/
abbrev Str := List Char

/-- Shorthand to write a `Str` literal. -/
def str (s : String) : Str := s.data

/-! ## Python string primitives -/

/-- Python `str.strip()` (no argument): drop leading and trailing whitespace. -/
def pyStrip (s : Str) : Str :=
  ((s.dropWhile Char.isWhitespace).reverse.dropWhile Char.isWhitespace).reverse

/-- Python `str.lower()` (ASCII-faithful approximation). -/
def pyLower (s : Str) : Str := s.map Char.toLower

/-- `s` begins with `p` (Python `str.startswith`). -/
def strStartsWith : Str → Str → Bool
  | _, [] => true
  | [], _ :: _ => false
  | c :: cs, p :: ps => c = p && strStartsWith cs ps

/-- `s` ends with `p` (Python `str.endswith`). -/
def strEndsWith (s p : Str) : Bool := strStartsWith s.reverse p.reverse

/-- `p` occurs as a contiguous substring of `s` (Python `p in s`). -/
def strContains : Str → Str → Bool
  | s, p =>
    if strStartsWith s p then true
    else match s with
      | [] => false
      | _ :: cs => strContains cs p

/-- Python `s.split(c)` for a single-character separator. -/
def splitOnChar (c : Char) : Str → List Str
  | [] => [[]]
  | x :: xs =>
    match splitOnChar c xs with
    | [] => [[]]
    | p :: ps => if x = c then [] :: p :: ps else (x :: p) :: ps

mutual

/-- Worker for `resplitRuns`: accumulating the current piece (reversed). -/
def resplitGo (p : Char → Bool) : Str → Str → List Str
  | [], cur => [cur.reverse]
  | x :: xs, cur =>
    if p x then cur.reverse :: resplitSkip p xs else resplitGo p xs (x :: cur)

/-- Worker for `resplitRuns`: inside a separator run. -/
def resplitSkip (p : Char → Bool) : Str → List Str
  | [] => [[]]
  | x :: xs => if p x then resplitSkip p xs else resplitGo p xs [x]

end

/-- Python `re.split("[sep]+", s)`: pieces between runs of separator
characters, keeping empty pieces at the boundaries. -/
def resplitRuns (p : Char → Bool) (s : Str) : List Str := resplitGo p s []

/-- Python `s.replace(pat, repl)` for a nonempty `pat`: replace all
non-overlapping occurrences left to right.  Fuel-recursive so the kernel can
evaluate it; `s.length` fuel always suffices. -/
def replaceSubGo (pat repl : Str) : Nat → Str → Str
  | 0, s => s
  | fuel + 1, s =>
    if pat ≠ [] ∧ strStartsWith s pat then
      repl ++ replaceSubGo pat repl fuel (s.drop pat.length)
    else
      match s with
      | [] => []
      | c :: cs => c :: replaceSubGo pat repl fuel cs

/-- Python `s.replace(pat, repl)`. -/
def replaceSub (s pat repl : Str) : Str := replaceSubGo pat repl s.length s

/-- Python `s.split(None, 1)` restricted to the two-part outcome: `some
(head, rest)` when the string, after skipping leading whitespace, has a
whitespace run with a nonempty remainder after it; `none` corresponds to
Python returning fewer than 2 parts. -/
def pySplitWs1 (s : Str) : Option (Str × Str) := go (s.dropWhile Char.isWhitespace)
where
  go : Str → Option (Str × Str)
    | [] => none
    | c :: cs =>
      if c.isWhitespace then
        let rest := cs.dropWhile Char.isWhitespace
        if rest = [] then none else some ([], rest)
      else
        match go cs with
        | some (a, b) => some (c :: a, b)
        | none => none

/-- Python's `str.title()`: uppercase a cased character that follows a
non-cased one, lowercase the rest (ASCII-faithful approximation). -/
def pyTitleGo : Bool → Str → Str
  | _, [] => []
  | prevAlpha, c :: rest =>
    (if prevAlpha then c.toLower else c.toUpper) :: pyTitleGo c.isAlpha rest

/-- Python `s.title()`. -/
def pyTitle (s : Str) : Str := pyTitleGo false s

/-- Truthiness of an optional string (Python `bool(x)` for `str | None`). -/
def optTruthy : Option Str → Bool
  | some s => s ≠ []
  | none => false

/-! ### Basic lemmas about the string primitives -/

theorem strStartsWith_length_le (s p : Str) (h : strStartsWith s p = true) :
    p.length ≤ s.length := by
  induction p generalizing s with
  | nil => simp
  | cons c cs ih =>
    cases s with
    | nil => simp [strStartsWith] at h
    | cons x xs =>
      simp only [strStartsWith, Bool.and_eq_true] at h
      simpa using ih xs h.2

theorem strStartsWith_eq_of_length (s p : Str) (h : strStartsWith s p = true)
    (hl : s.length ≤ p.length) : p = s := by
  induction p generalizing s with
  | nil => cases s with
    | nil => rfl
    | cons x xs => simp at hl
  | cons c cs ih =>
    cases s with
    | nil => simp [strStartsWith] at h
    | cons x xs =>
      simp only [strStartsWith, Bool.and_eq_true, decide_eq_true_eq] at h
      simp only [List.length_cons, Nat.add_le_add_iff_right] at hl
      rw [h.1, ih xs h.2 hl]

theorem strContains_length_le (s p : Str) (h : strContains s p = true) :
    p.length ≤ s.length := by
  induction s with
  | nil =>
    rw [strContains] at h
    split at h
    · exact strStartsWith_length_le _ _ (by assumption)
    · simp at h
  | cons c cs ih =>
    rw [strContains] at h
    split at h
    · exact strStartsWith_length_le _ _ (by assumption)
    · exact le_trans (ih h) (by simp)

theorem strContains_eq_of_length (s p : Str) (h : strContains s p = true)
    (hl : s.length ≤ p.length) : p = s := by
  cases s with
  | nil =>
    rw [strContains] at h
    split at h
    · exact strStartsWith_eq_of_length _ _ (by assumption) hl
    · simp at h
  | cons c cs =>
    rw [strContains] at h
    split at h
    · exact strStartsWith_eq_of_length _ _ (by assumption) hl
    · exact absurd (le_trans hl (strContains_length_le _ _ h)) (by simp)

/-! ## Python dicts as association lists -/

/-- Python `d.get(k)`. -/
def alistLookup {α : Type} : List (Str × α) → Str → Option α
  | [], _ => none
  | (k', v) :: rest, k => if k' = k then some v else alistLookup rest k

/-- Python `d[k] = v`: replace in place when the key exists, else append. -/
def dictSet : List (Str × Str) → Str → Str → List (Str × Str)
  | [], k, v => [(k, v)]
  | (k', v') :: rest, k, v =>
    if k' = k then (k, v) :: rest else (k', v') :: dictSet rest k v

/-- The keys of a dict, in insertion order. -/
def dictKeys (d : List (Str × Str)) : List Str := d.map Prod.fst

/-- Python `tags.get(k, default)`. -/
def tagsGetD (tags : List (Str × Str)) (k : Str) (default : Str) : Str :=
  (alistLookup tags k).getD default

/-! ## `scraper/parsers.py` — tag normalisation -/

/-- Maps 2-letter OSM day abbreviations to full English day names. -/
def _DAY_MAP : List (Str × Str) :=
  [(str "Mo", str "monday"), (str "Tu", str "tuesday"), (str "We", str "wednesday"),
   (str "Th", str "thursday"), (str "Fr", str "friday"), (str "Sa", str "saturday"),
   (str "Su", str "sunday")]

def _DAY_ORDER : List Str := _DAY_MAP.map Prod.snd

/-- Expand `"Mo-Fr"` to `[monday, …, friday]` or `"Sa"` to `[saturday]`.
The anchored regex `^(Mo|…|Su)(?:-(Mo|…|Su))?$` is modelled by splitting on
`-` and requiring each part to be a day abbreviation. -/
def _expand_day_range (token : Str) : List Str :=
  match splitOnChar '-' token with
  | [a] =>
    match alistLookup _DAY_MAP a with
    | some d => [d]
    | none => []
  | [a, b] =>
    match alistLookup _DAY_MAP a, alistLookup _DAY_MAP b with
    | some start_day, some end_day =>
      let start_idx := _DAY_ORDER.findIdx (fun d => d = start_day)
      let end_idx := _DAY_ORDER.findIdx (fun d => d = end_day)
      if start_idx ≤ end_idx then
        (_DAY_ORDER.drop start_idx).take (end_idx + 1 - start_idx)
      else
        -- Wrap around (e.g. Fr-Mo)
        _DAY_ORDER.drop start_idx ++ _DAY_ORDER.take (end_idx + 1)
    | _, _ => []
  | _ => []

/-- The `;`-separated rules of a raw `opening_hours` value, stripped, empties
dropped. -/
def openingRules (raw : Str) : List Str :=
  ((splitOnChar ';' raw).map pyStrip).filter (fun r => r ≠ [])

/-- The `(day, value)` assignments one rule performs, in order: the source's
per-rule loop body writes exactly these into the result dict. -/
def ruleWrites (rule : Str) : List (Str × Str) :=
  if rule = str "24/7" then
    _DAY_ORDER.map (fun day => (day, str "00:00-24:00"))
  else if strContains rule (str " off") then
    (_expand_day_range (pyStrip (replaceSub rule (str " off") []))).map
      (fun day => (day, str "closed"))
  else
    match pySplitWs1 rule with
    | none => []
    | some (day_part, time_part) =>
      ((splitOnChar ',' day_part).map pyStrip).flatMap
        (fun token => (_expand_day_range token).map (fun day => (day, pyStrip time_part)))

/-- All `(day, value)` assignments of a raw value, across its rules. -/
def allWrites (raw : Str) : List (Str × Str) :=
  (openingRules raw).flatMap ruleWrites

/-- Best-effort parse of OSM `opening_hours` into per-day strings; `none`
when the input is absent/empty or produced no assignments.  (Nothing in the
modelled branches can raise, so the source's `except` path is dead.) -/
def parse_opening_hours (raw : Option Str) : Option (List (Str × Str)) :=
  match raw with
  | none => none
  | some s =>
    if s = [] then none
    else
      let result := (allWrites s).foldl (fun d p => dictSet d p.1 p.2) []
      if result = [] then none else some result

/-- Build a human-readable address from `addr:*` tags. -/
def parse_address (tags : List (Str × Str)) : Str :=
  let street := tagsGetD tags (str "addr:street") []
  let number := tagsGetD tags (str "addr:housenumber") []
  let postcode := tagsGetD tags (str "addr:postcode") []
  let city := tagsGetD tags (str "addr:city") (str "Graz")
  let street_part := pyStrip (street ++ str " " ++ number)
  let city_part := pyStrip (postcode ++ str " " ++ city)
  if street_part ≠ [] ∧ city_part ≠ [] then street_part ++ str ", " ++ city_part
  else if street_part ≠ [] then street_part ++ str ", Graz"
  else if city_part ≠ [] then city_part
  else str "Graz, Austria"

/-- Parse the `cuisine` tag into a title-cased list, falling back to a
default inferred from `amenity`. -/
def parse_cuisine (tags : List (Str × Str)) : List Str :=
  let raw := tagsGetD tags (str "cuisine") []
  if raw ≠ [] then
    ((splitOnChar ';' raw).filter (fun c => pyStrip c ≠ [])).map
      (fun c => pyTitle (replaceSub (pyStrip c) (str "_") (str " ")))
  else
    let amenity := tagsGetD tags (str "amenity") []
    let fallback : List (Str × List Str) :=
      [(str "cafe", [str "Cafe"]), (str "fast_food", [str "Fast Food"]),
       (str "bar", [str "Bar"]), (str "pub", [str "Bar"]),
       (str "biergarten", [str "Austrian", str "Beer Garden"])]
    (alistLookup fallback amenity).getD [str "Restaurant"]

def _FEATURE_TAG_MAP : List (Str × Str × List Str) :=
  [(str "outdoor_seating", str "outdoor_seating", [str "yes"]),
   (str "wheelchair", str "wheelchair_accessible", [str "yes", str "limited"]),
   (str "diet:vegan", str "vegan_options", [str "yes", str "only"]),
   (str "diet:vegetarian", str "vegetarian_options", [str "yes", str "only"]),
   (str "internet_access", str "wifi", [str "wlan", str "yes"]),
   (str "delivery", str "delivery", [str "yes"]),
   (str "takeaway", str "takeaway", [str "yes"]),
   (str "reservation", str "reservations", [str "yes"])]

/-- Extract boolean feature flags from OSM tags. -/
def parse_features (tags : List (Str × Str)) : List Str :=
  _FEATURE_TAG_MAP.filterMap (fun e =>
    if pyLower (tagsGetD tags e.1 []) ∈ e.2.2 then some e.2.1 else none)

/-- Infer price range from amenity type. -/
def parse_price_range (tags : List (Str × Str)) : Str :=
  let amenity := tagsGetD tags (str "amenity") []
  let mapping : List (Str × Str) :=
    [(str "fast_food", str "€"), (str "cafe", str "€€"), (str "bar", str "€€"),
     (str "pub", str "€€"), (str "biergarten", str "€€"),
     (str "restaurant", str "€€")]
  (alistLookup mapping amenity).getD (str "€€")

/-- Extract phone from `phone` or `contact:phone` (Python `a or b or None`). -/
def parse_phone (tags : List (Str × Str)) : Option Str :=
  let a := alistLookup tags (str "phone")
  let b := alistLookup tags (str "contact:phone")
  if optTruthy a then a else if optTruthy b then b else none

/-- Extract website from `website` or `contact:website`. -/
def parse_website (tags : List (Str × Str)) : Option Str :=
  let a := alistLookup tags (str "website")
  let b := alistLookup tags (str "contact:website")
  if optTruthy a then a else if optTruthy b then b else none

/-- One dish/drink entry as the extraction strategies produce it. -/
structure MenuItemD where
  name : Str
  price : Str
  category : Str
deriving DecidableEq

/-- The canonical business record `raw_to_restaurant` builds (coordinate
values are opaque pass-through data, modelled as strings). -/
structure Restaurant where
  name : Str
  address : Str
  phone : Option Str
  website : Option Str
  cuisine : List Str
  price_range : Str
  rating : Option Str
  review_count : Nat
  features : List Str
  opening_hours : Option (List (Str × Str))
  summary : Option Str
  menu_items : List MenuItemD
  menu_url : Option Str
  latitude : Option Str
  longitude : Option Str
  data_sources : List Str
deriving DecidableEq

/-- A raw element as `raw_to_restaurant` consumes it: its tag map and the
top-level `latitude`/`longitude` the Overpass stage attached. -/
structure RawInputElement where
  tags : List (Str × Str)
  latitude : Option Str
  longitude : Option Str

/-- Convert a raw Overpass element into the Restaurant schema. -/
def raw_to_restaurant (element : RawInputElement) : Restaurant :=
  let tags := element.tags
  let name := tagsGetD tags (str "name") []
  { name := name
    address := parse_address tags
    phone := parse_phone tags
    website := parse_website tags
    cuisine := parse_cuisine tags
    price_range := parse_price_range tags
    rating := none
    review_count := 0
    features := parse_features tags
    opening_hours := parse_opening_hours (alistLookup tags (str "opening_hours"))
    summary := none
    menu_items := []
    menu_url := none
    latitude := element.latitude
    longitude := element.longitude
    data_sources := [str "openstreetmap"] }

/-! ## `scraper/__main__.py` — deduplication -/

/-- The dedup key: trimmed, case-folded name. -/
def dedupKey (r : Restaurant) : Str := pyLower (pyStrip r.name)

/-- The dedup loop with its `seen` set. -/
def dedupGo (seen : List Str) : List Restaurant → List Restaurant
  | [] => []
  | r :: rest =>
    let key := dedupKey r
    if key ∈ seen then dedupGo seen rest
    else r :: dedupGo (key :: seen) rest

/-- Remove duplicates by name (case-insensitive, keep first occurrence). -/
def _deduplicate (restaurants : List Restaurant) : List Restaurant :=
  dedupGo [] restaurants

/-! ## `scraper/overpass.py` — upstream fetch with retry/backoff -/

/-- One raw element of the Overpass response.  Coordinate values are opaque
pass-through data (modelled as strings); `center` is the pair the `center`
sub-object provides, `(none, none)` when absent. -/
structure OverpassElement where
  typ : Str
  id : Option Nat
  tags : List (Str × Str)
  lat : Option Str
  lon : Option Str
  center : Option Str × Option Str
deriving DecidableEq

/-- Extract latitude/longitude: direct for nodes, else the `center` field. -/
def _extract_coords (element : OverpassElement) : Option Str × Option Str :=
  if element.typ = str "node" then (element.lat, element.lon) else element.center

/-- One element of the list `scrape` returns. -/
structure ProcessedElement where
  osm_id : Option Nat
  osm_type : Str
  tags : List (Str × Str)
  latitude : Option Str
  longitude : Option Str
deriving DecidableEq

/-- Post-processing of a successful response: discard elements lacking a
name tag, attach coordinates at top level. -/
def processElements (elements : List OverpassElement) : List ProcessedElement :=
  (elements.filter (fun e => optTruthy (alistLookup e.tags (str "name")))).map
    (fun e =>
      let coords := _extract_coords e
      { osm_id := e.id, osm_type := e.typ, tags := e.tags,
        latitude := coords.1, longitude := coords.2 })

/-- What one HTTP attempt against the Overpass endpoint yields: a parsed
response body, an `HTTPStatusError` from `raise_for_status`, or a
network-level `RequestError`. -/
inductive FetchOutcome where
  | success (elements : List OverpassElement)
  | httpError (status : Nat)
  | netError
deriving DecidableEq

/-- How the `scrape` coroutine terminates. -/
inductive ScrapeResult where
  | ok (results : List ProcessedElement)
  | httpRaise (status : Nat)
  | netRaise
  | exhausted
deriving DecidableEq

/-- A run of `scrape`: its outcome, how many HTTP attempts it made, and the
backoff sleeps it performed (in seconds, in order). -/
structure ScrapeRun where
  result : ScrapeResult
  attempts : Nat
  waits : List Nat
deriving DecidableEq

def _MAX_RETRIES : Nat := 3
def _RETRY_BACKOFF : List Nat := [5, 15, 30]

/-- The `for attempt in range(_MAX_RETRIES)` loop of `scrape`, from attempt
index `attempt` with `remaining` iterations left; `responses` gives each
attempt's outcome.  Exhausting the loop without `break` models the
`resp is None` RuntimeError. -/
def scrapeGo (responses : Nat → FetchOutcome) : Nat → Nat → ScrapeRun
  | 0, _ => ⟨.exhausted, 0, []⟩
  | remaining + 1, attempt =>
    match responses attempt with
    | .success elements => ⟨.ok (processElements elements), 1, []⟩
    | .httpError status =>
      if (status = 429 ∨ status = 504) ∧ attempt < _MAX_RETRIES - 1 then
        let rest := scrapeGo responses remaining (attempt + 1)
        ⟨rest.result, rest.attempts + 1, _RETRY_BACKOFF.getD attempt 0 :: rest.waits⟩
      else ⟨.httpRaise status, 1, []⟩
    | .netError =>
      if attempt < _MAX_RETRIES - 1 then
        let rest := scrapeGo responses remaining (attempt + 1)
        ⟨rest.result, rest.attempts + 1, _RETRY_BACKOFF.getD attempt 0 :: rest.waits⟩
      else ⟨.netRaise, 1, []⟩

/-- `scrape`, as a function of the per-attempt outcomes. -/
def scrapeModel (responses : Nat → FetchOutcome) : ScrapeRun :=
  scrapeGo responses _MAX_RETRIES 0

/-- An outcome the retry policy retries on. -/
def retryable (o : FetchOutcome) : Prop :=
  o = .httpError 429 ∨ o = .httpError 504 ∨ o = .netError

/-- The last value written for `day` by a write sequence, if any. -/
def lastWrite (ws : List (Str × Str)) (day : Str) : Option Str :=
  (ws.reverse.find? (fun p => p.1 = day)).map Prod.snd

/-- The spec's reading of deduplication: keep each entity whose key has not
appeared before, i.e. exactly the first occurrence per key. -/
def dedupSpec : List Restaurant → List Restaurant
  | [] => []
  | r :: rest =>
    r :: dedupSpec (rest.filter (fun s => dedupKey s ≠ dedupKey r))
termination_by rs => rs.length
decreasing_by
  simp only [List.length_cons]
  exact Nat.lt_succ_of_le (List.length_filter_le _ _)

/-! ## Dict lemmas -/

theorem alistLookup_dictSet_self (d : List (Str × Str)) (k v : Str) :
    alistLookup (dictSet d k v) k = some v := by
  induction d with
  | nil => simp [dictSet, alistLookup]
  | cons p rest ih =>
    obtain ⟨k', v'⟩ := p
    by_cases h : k' = k
    · simp [dictSet, h, alistLookup]
    · simp [dictSet, h, alistLookup, ih]

theorem alistLookup_dictSet_ne (d : List (Str × Str)) (k v k' : Str) (h : k ≠ k') :
    alistLookup (dictSet d k v) k' = alistLookup d k' := by
  induction d with
  | nil => simp [dictSet, alistLookup, h]
  | cons p rest ih =>
    obtain ⟨k₀, v₀⟩ := p
    by_cases h₀ : k₀ = k
    · simp [dictSet, h₀, alistLookup, h]
    · by_cases h₁ : k₀ = k'
      · simp [dictSet, h₀, alistLookup, h₁, Ne.symm h]
      · simp [dictSet, h₀, alistLookup, h₁, ih]

theorem mem_dictKeys_dictSet (d : List (Str × Str)) (k v x : Str) :
    x ∈ dictKeys (dictSet d k v) ↔ x = k ∨ x ∈ dictKeys d := by
  induction d with
  | nil => simp [dictSet, dictKeys]
  | cons p rest ih =>
    obtain ⟨k₀, v₀⟩ := p
    by_cases h₀ : k₀ = k
    · subst h₀
      have hset : dictSet ((k₀, v₀) :: rest) k₀ v = (k₀, v) :: rest := by
        simp [dictSet]
      rw [hset]
      simp only [dictKeys, List.map_cons, List.mem_cons]
      tauto
    · have hset : dictSet ((k₀, v₀) :: rest) k v = (k₀, v₀) :: dictSet rest k v := by
        simp [dictSet, h₀]
      rw [hset]
      simp only [dictKeys, List.map_cons, List.mem_cons] at ih ⊢
      rw [ih]
      tauto

theorem dictKeys_dictSet_nodup (d : List (Str × Str)) (k v : Str)
    (h : (dictKeys d).Nodup) : (dictKeys (dictSet d k v)).Nodup := by
  induction d with
  | nil => simp [dictSet, dictKeys]
  | cons p rest ih =>
    obtain ⟨k₀, v₀⟩ := p
    simp only [dictKeys, List.map_cons, List.nodup_cons] at h
    by_cases h₀ : k₀ = k
    · subst h₀
      simpa [dictSet, dictKeys] using h
    · simp only [dictSet, h₀, if_false, dictKeys, List.map_cons, List.nodup_cons]
      refine ⟨?_, ih h.2⟩
      rw [show (dictSet rest k v).map Prod.fst = dictKeys (dictSet rest k v) from rfl,
        mem_dictKeys_dictSet]
      push_neg
      exact ⟨h₀, h.1⟩

theorem lastWrite_cons (w : Str × Str) (ws : List (Str × Str)) (day : Str) :
    lastWrite (w :: ws) day
      = (lastWrite ws day).or (if w.1 = day then some w.2 else none) := by
  unfold lastWrite
  rw [List.reverse_cons, List.find?_append]
  cases hf : List.find? (fun p => decide (p.1 = day)) ws.reverse with
  | none => by_cases h : w.1 = day <;> simp [hf, List.find?, h]
  | some p => by_cases h : w.1 = day <;> simp [hf, h]

theorem lookup_foldl_dictSet (ws : List (Str × Str)) (d : List (Str × Str)) (day : Str) :
    alistLookup (ws.foldl (fun d p => dictSet d p.1 p.2) d) day
      = (lastWrite ws day).or (alistLookup d day) := by
  induction ws generalizing d with
  | nil => simp [lastWrite]
  | cons w ws ih =>
    rw [List.foldl_cons, ih, lastWrite_cons, Option.or_assoc]
    congr 1
    by_cases h : w.1 = day
    · subst h
      simp [alistLookup_dictSet_self]
    · simp [alistLookup_dictSet_ne _ _ _ _ h, h]

theorem foldl_dictSet_keys_nodup (ws : List (Str × Str)) (d : List (Str × Str))
    (h : (dictKeys d).Nodup) :
    (dictKeys (ws.foldl (fun d p => dictSet d p.1 p.2) d)).Nodup := by
  induction ws generalizing d with
  | nil => exact h
  | cons w ws ih => exact ih _ (dictKeys_dictSet_nodup _ _ _ h)

/-! ## Retry-loop lemmas -/

theorem scrapeGo_attempts_le (responses : Nat → FetchOutcome) :
    ∀ rem a, (scrapeGo responses rem a).attempts ≤ rem := by
  intro rem
  induction rem with
  | zero => intro a; simp [scrapeGo]
  | succ n ih =>
    intro a
    rw [scrapeGo]
    cases responses a with
    | success elements => simp
    | httpError status =>
      dsimp only
      split
      · simpa using ih (a + 1)
      · simp
    | netError =>
      dsimp only
      split
      · simpa using ih (a + 1)
      · simp

theorem scrapeGo_attempts_pos (responses : Nat → FetchOutcome) (rem a : Nat)
    (h : 1 ≤ rem) : 1 ≤ (scrapeGo responses rem a).attempts := by
  cases rem with
  | zero => omega
  | succ n =>
    rw [scrapeGo]
    cases responses a with
    | success elements => simp
    | httpError status => dsimp only; split <;> simp
    | netError => dsimp only; split <;> simp

theorem scrapeGo_waits (responses : Nat → FetchOutcome) :
    ∀ rem a, _MAX_RETRIES ≤ rem + a →
      (scrapeGo responses rem a).waits
        = (List.range ((scrapeGo responses rem a).attempts - 1)).map
            (fun i => _RETRY_BACKOFF.getD (a + i) 0) := by
  intro rem
  induction rem with
  | zero => intro a _; simp [scrapeGo]
  | succ n ih =>
    intro a hinv
    rw [scrapeGo]
    cases responses a with
    | success elements => simp
    | httpError status =>
      dsimp only
      split
      · rename_i hcond
        have hrem : 1 ≤ n := by
          simp [_MAX_RETRIES] at hinv hcond; omega
        have hpos := scrapeGo_attempts_pos responses n (a + 1) hrem
        have hrec := ih (a + 1) (by simp [_MAX_RETRIES] at hinv ⊢; omega)
        dsimp only
        rw [hrec]
        obtain ⟨t, ht⟩ : ∃ t, (scrapeGo responses n (a + 1)).attempts = t + 1 :=
          ⟨(scrapeGo responses n (a + 1)).attempts - 1, by omega⟩
        rw [ht]
        simp only [Nat.add_sub_cancel, List.range_succ_eq_map, List.map_cons, List.map_map]
        refine congrArg₂ List.cons (by simp) ?_
        apply List.map_congr_left
        intro i _
        simp only [Function.comp_apply]
        congr 1
        omega
      · simp
    | netError =>
      dsimp only
      split
      · rename_i hcond
        have hrem : 1 ≤ n := by
          simp [_MAX_RETRIES] at hinv hcond; omega
        have hpos := scrapeGo_attempts_pos responses n (a + 1) hrem
        have hrec := ih (a + 1) (by simp [_MAX_RETRIES] at hinv ⊢; omega)
        dsimp only
        rw [hrec]
        obtain ⟨t, ht⟩ : ∃ t, (scrapeGo responses n (a + 1)).attempts = t + 1 :=
          ⟨(scrapeGo responses n (a + 1)).attempts - 1, by omega⟩
        rw [ht]
        simp only [Nat.add_sub_cancel, List.range_succ_eq_map, List.map_cons, List.map_map]
        refine congrArg₂ List.cons (by simp) ?_
        apply List.map_congr_left
        intro i _
        simp only [Function.comp_apply]
        congr 1
        omega
      · simp

/-! ## Dedup lemmas -/

theorem dedupGo_eq_spec :
    ∀ (rs : List Restaurant) (seen : List Str),
      dedupGo seen rs = dedupSpec (rs.filter (fun r => dedupKey r ∉ seen)) := by
  intro rs
  induction rs with
  | nil => intro seen; simp [dedupGo, dedupSpec]
  | cons r rest ih =>
    intro seen
    by_cases h : dedupKey r ∈ seen
    · rw [dedupGo]
      simp only [h, if_true, List.filter_cons]
      rw [ih seen]
      simp [h]
    · rw [dedupGo]
      simp only [h, if_false]
      rw [ih (dedupKey r :: seen)]
      have hcons : (r :: rest).filter (fun s => decide (dedupKey s ∉ seen))
          = r :: rest.filter (fun s => decide (dedupKey s ∉ seen)) := by
        simp [List.filter_cons, h]
      rw [hcons, dedupSpec, List.filter_filter]
      congr 1
      congr 1
      apply List.filter_congr
      intro x _
      simp [List.mem_cons, not_or]

theorem dedupGo_keys_fresh :
    ∀ (rs : List Restaurant) (seen : List Str),
      (((dedupGo seen rs).map dedupKey).Nodup)
      ∧ ∀ k ∈ (dedupGo seen rs).map dedupKey, k ∉ seen := by
  intro rs
  induction rs with
  | nil => intro seen; simp [dedupGo]
  | cons r rest ih =>
    intro seen
    by_cases h : dedupKey r ∈ seen
    · rw [dedupGo]
      simp only [h, if_true]
      exact ih seen
    · rw [dedupGo]
      simp only [h, if_false, List.map_cons, List.nodup_cons]
      obtain ⟨hnodup, hfresh⟩ := ih (dedupKey r :: seen)
      refine ⟨⟨fun hmem => ?_, hnodup⟩, ?_⟩
      · exact hfresh _ hmem (List.mem_cons_self _ _)
      · intro k hk
        rcases List.mem_cons.mp hk with rfl | hk
        · exact h
        · intro hkseen
          exact hfresh _ hk (List.mem_cons_of_mem _ hkseen)

theorem dedupGo_sublist :
    ∀ (rs : List Restaurant) (seen : List Str), List.Sublist (dedupGo seen rs) rs := by
  intro rs
  induction rs with
  | nil => intro seen; simp [dedupGo]
  | cons r rest ih =>
    intro seen
    rw [dedupGo]
    by_cases h : dedupKey r ∈ seen
    · simp only [h, if_true]
      exact (ih seen).trans (List.sublist_cons_self _ _)
    · simp only [h, if_false]
      exact (ih (dedupKey r :: seen)).cons₂ r

/-! ## Claim theorems: C3, C4, C7, C8 -/

/-- **C3**: the upstream fetch makes at most 3 attempts; every backoff sleep
follows the fixed schedule (the sleep before re-attempt `i+1` is
`_RETRY_BACKOFF[i]`, so the sleeps are a prefix of 5s, 15s);  a retryable
outcome (HTTP 429 or 504, or a network failure) below the attempt limit
sleeps `_RETRY_BACKOFF[attempt]` seconds and retries; a single 429 followed
by a 200 succeeds with the parsed (name-filtered, coordinate-attached)
elements after one 5s sleep; three consecutive 504s exhaust the retries and
raise; any other HTTP error status raises immediately on the first attempt
with no sleep. -/
theorem overpass_retry_policy :
    (∀ responses, (scrapeModel responses).attempts ≤ 3)
  ∧ (∀ responses, (scrapeModel responses).waits
      = (List.range ((scrapeModel responses).attempts - 1)).map
          (fun i => _RETRY_BACKOFF.getD i 0))
  ∧ (∀ responses rem a, a + 1 < _MAX_RETRIES → retryable (responses a) →
      scrapeGo responses (rem + 1) a
        = ⟨(scrapeGo responses rem (a + 1)).result,
           (scrapeGo responses rem (a + 1)).attempts + 1,
           _RETRY_BACKOFF.getD a 0 :: (scrapeGo responses rem (a + 1)).waits⟩)
  ∧ (∀ responses elements,
      responses 0 = .httpError 429 → responses 1 = .success elements →
      scrapeModel responses = ⟨.ok (processElements elements), 2, [5]⟩)
  ∧ (∀ responses,
      responses 0 = .httpError 504 → responses 1 = .httpError 504 →
      responses 2 = .httpError 504 →
      scrapeModel responses = ⟨.httpRaise 504, 3, [5, 15]⟩)
  ∧ (∀ responses status,
      responses 0 = .httpError status → status ≠ 429 → status ≠ 504 →
      scrapeModel responses = ⟨.httpRaise status, 1, []⟩) := by
  refine ⟨fun responses => scrapeGo_attempts_le responses _MAX_RETRIES 0,
          fun responses => ?_, ?_, ?_, ?_, ?_⟩
  · have h := scrapeGo_waits responses _MAX_RETRIES 0 (by simp)
    simpa using h
  · intro responses rem a ha hr
    have ha' : a < _MAX_RETRIES - 1 := by simp only [_MAX_RETRIES] at ha ⊢; omega
    rcases hr with h | h | h <;> rw [scrapeGo, h] <;> simp [ha']
  · intro responses elements h0 h1
    simp [scrapeModel, scrapeGo, h0, h1, _MAX_RETRIES, _RETRY_BACKOFF]
  · intro responses h0 h1 h2
    simp [scrapeModel, scrapeGo, h0, h1, h2, _MAX_RETRIES, _RETRY_BACKOFF]
  · intro responses status h0 hne1 hne2
    simp [scrapeModel, scrapeGo, h0, hne1, hne2]

/-- **C4**: for every opening-hours input that parses, the result maps each
referenced day to at most one value (its keys are distinct), and that value
is the last assignment any rule made for the day; `"24/7"` yields all 7 days
mapped to the full-day range; the wrapping range `Fr-Mo` expands to exactly
Friday, Saturday, Sunday, Monday. -/
theorem opening_hours_parse_last_rule_wins :
    (∀ s d, parse_opening_hours (some s) = some d →
        (dictKeys d).Nodup ∧ ∀ day, alistLookup d day = lastWrite (allWrites s) day)
  ∧ parse_opening_hours (some (str "24/7"))
      = some (_DAY_ORDER.map (fun day => (day, str "00:00-24:00")))
  ∧ _expand_day_range (str "Fr-Mo")
      = [str "friday", str "saturday", str "sunday", str "monday"] := by
  refine ⟨?_, by decide, by decide⟩
  intro s d h
  simp only [parse_opening_hours] at h
  split at h
  · exact absurd h (by simp)
  · split at h
    · exact absurd h (by simp)
    · obtain rfl : (allWrites s).foldl (fun d p => dictSet d p.1 p.2) [] = d := by
        simpa using h
      refine ⟨foldl_dictSet_keys_nodup _ _ (by simp [dictKeys]), fun day => ?_⟩
      rw [lookup_foldl_dictSet]
      simp [alistLookup]

/-- The two-rule opening-hours input used as a concrete instance of C4. -/
def c4Raw : Str := str "Mo-Fr 10:00-22:00; Fr 11:00-20:00"

/-- What `parse_opening_hours` produces for `c4Raw`. -/
def c4Dict : List (Str × Str) :=
  [(str "monday", str "10:00-22:00"), (str "tuesday", str "10:00-22:00"),
   (str "wednesday", str "10:00-22:00"), (str "thursday", str "10:00-22:00"),
   (str "friday", str "11:00-20:00")]

/-- Closed instance for **C4**: a two-rule input where the later rule
overwrites Friday, showing the last-rule-wins equations at a concrete
input. -/
theorem opening_hours_parse_witness :
    parse_opening_hours (some c4Raw) = some c4Dict
  ∧ (dictKeys c4Dict).Nodup
  ∧ alistLookup c4Dict (str "friday") = lastWrite (allWrites c4Raw) (str "friday") := by
  refine ⟨by decide, ?_, ?_⟩
  · exact (opening_hours_parse_last_rule_wins.1 c4Raw c4Dict (by decide)).1
  · exact (opening_hours_parse_last_rule_wins.1 c4Raw c4Dict (by decide)).2 (str "friday")

/-- **C7**: deduplication equals the keep-first-occurrence-per-key map, the
survivors' keys (trimmed, case-folded names) are pairwise distinct, and the
survivors appear in input (first-seen) order: the output is a sublist of the
input. -/
theorem deduplicate_first_occurrence_order :
    (∀ rs, _deduplicate rs = dedupSpec rs)
  ∧ (∀ rs, ((_deduplicate rs).map dedupKey).Nodup)
  ∧ (∀ rs, List.Sublist (_deduplicate rs) rs) := by
  refine ⟨fun rs => ?_, fun rs => (dedupGo_keys_fresh rs []).1,
    fun rs => dedupGo_sublist rs []⟩
  rw [_deduplicate, dedupGo_eq_spec]
  congr 1
  simp

/-- The raw element of the end-to-end scenario of **C8**. -/
def c8Element : RawInputElement :=
  { tags := [(str "name", str "Pizzeria Roma"), (str "amenity", str "restaurant"),
             (str "cuisine", str "italian;pizza")],
    latitude := none, longitude := none }

/-- Counterexample to **C8** as stated: normalizing the Pizzeria Roma element
yields address `"Graz"`, not `"Graz, Austria"` (the `addr:city` default makes
the city part non-empty, so the `"Graz, Austria"` sentinel is unreachable
here), while cuisine and price tier are as claimed. -/
theorem pizzeria_roma_address_cex :
    (raw_to_restaurant c8Element).cuisine = [str "Italian", str "Pizza"]
  ∧ (raw_to_restaurant c8Element).price_range = str "€€"
  ∧ (raw_to_restaurant c8Element).address = str "Graz"
  ∧ (raw_to_restaurant c8Element).address ≠ str "Graz, Austria" := by
  refine ⟨by decide, by decide, by decide, by decide⟩

/-- **C8 amended**: the Pizzeria Roma element normalizes to cuisine
`["Italian", "Pizza"]`, price tier `"€€"`, and address `"Graz"`. -/
theorem pizzeria_roma_normalization :
    (raw_to_restaurant c8Element).cuisine = [str "Italian", str "Pizza"]
  ∧ (raw_to_restaurant c8Element).price_range = str "€€"
  ∧ (raw_to_restaurant c8Element).address = str "Graz" := by
  refine ⟨by decide, by decide, by decide⟩

/-! ## `scraper/website_discovery.py` — website matcher

`urlparse` is an external collaborator: it is modelled as a function
`parse : Str → Option Str` giving the lowercase-insensitive netloc of a URL,
`none` standing for the call raising. -/

/-- Aggregator / review / social platforms. -/
def _SKIP_DOMAINS : List Str :=
  [str "google.com", str "google.at", str "maps.google.com",
   str "facebook.com", str "instagram.com", str "youtube.com", str "tiktok.com",
   str "twitter.com", str "x.com", str "linkedin.com", str "pinterest.com",
   str "reddit.com",
   str "tripadvisor.com", str "tripadvisor.at", str "tripadvisor.de",
   str "yelp.com", str "yelp.at", str "thefork.com", str "quandoo.at",
   str "quandoo.com",
   str "lieferando.at", str "lieferando.de", str "mjam.net", str "wolt.com",
   str "uber.com", str "ubereats.com",
   str "foursquare.com", str "wikipedia.org", str "de.wikipedia.org",
   str "en.wikipedia.org", str "herold.at", str "falter.at", str "falstaff.com",
   str "falstaff.at", str "graz.at", str "stadtbekannt.at", str "gastrofinder.at",
   str "restaurant.info", str "speisekarte.de", str "restaurantguru.com",
   str "smartgastro.at"]

/-- Generic / non-restaurant domains. -/
def _GENERIC_BLOCKLIST : List Str :=
  [str "zhihu.com", str "baidu.com", str "weibo.com",
   str "answers.microsoft.com", str "learn.microsoft.com", str "microsoft.com",
   str "stackoverflow.com", str "github.com", str "gitlab.com", str "nuwaves.com",
   str "finanztip.de", str "check24.de",
   str "sofifa.com", str "transfermarkt.at", str "transfermarkt.de",
   str "kaffee-netz.de", str "chefkoch.de",
   str "ganz-wien.at", str "meinbezirk.at", str "wogibtswas.at",
   str "ford-torino.de", str "autoscout24.at", str "autoscout24.de",
   str "pantip.com", str "bergfex.at", str "bergfex.com",
   str "stadt-salzburg.at", str "wien.gv.at", str "graz.gv.at"]

def _PREFERRED_TLDS : List Str := [str ".at", str ".co.at", str ".or.at"]

def _ACCEPTABLE_TLDS : List Str :=
  [str ".com", str ".eu", str ".de", str ".net", str ".org", str ".io"]

def _SUSPECT_TLDS : List Str :=
  [str ".cn", str ".ru", str ".fi", str ".kr", str ".jp", str ".br", str ".pl",
   str ".cz", str ".sk"]

/-- The alternatives of the `_NEGATIVE_DOMAIN_WORDS` regex (all literal
words; the regex matches iff one occurs as a substring). -/
def _NEGATIVE_DOMAIN_WORDS : List Str :=
  [str "microsoft", str "amazon", str "apple", str "google", str "github",
   str "gitlab", str "stackoverflow", str "wikipedia", str "reddit",
   str "forum", str "wiki", str "news", str "finance", str "finanz",
   str "sport", str "fifa", str "football", str "soccer", str "auto",
   str "ford", str "vehicle", str "electronics", str "semiconductor",
   str "nuwaves", str "answers", str "learn"]

/-- The alternatives of the `_FOOD_SIGNALS` regex (all literal words). -/
def _FOOD_SIGNALS : List Str :=
  [str "restaurant", str "gasthaus", str "gasthof", str "wirtshaus",
   str "pizzeria", str "trattoria", str "ristorante",
   str "bistro", str "brasserie", str "lokal", str "küche", str "speisekarte",
   str "menü", str "menu", str "essen",
   str "reservier", str "tischreservierung", str "brunch", str "mittag",
   str "abendessen",
   str "café", str "cafe", str "konditorei", str "bäckerei", str "kebab",
   str "sushi", str "pizza", str "burger",
   str "buschenschank", str "heuriger", str "beisl", str "stüberl",
   str "kantine", str "mensa",
   str "graz", str "steiermark", str "styria"]

def _MIN_SCORE : Nat := 3

/-- A regex of literal alternatives searched over an (already lowercased)
string: does any alternative occur as a substring? -/
def anySub (words : List Str) (s : Str) : Bool :=
  words.any (fun w => strContains s w)

/-- Check if a URL belongs to a blocked domain.  The `try` wraps the whole
body; only the netloc parse can raise, and a raise returns `True`. -/
def _is_blocked (parse : Str → Option Str) (url : Str) : Bool :=
  match parse url with
  | none => true
  | some netloc =>
    let domain := pyLower netloc
    let domain := if strStartsWith domain (str "www.") then domain.drop 4 else domain
    let all_blocked := _SKIP_DOMAINS ++ _GENERIC_BLOCKLIST
    if domain ∈ all_blocked then true
    else all_blocked.any (fun b => strEndsWith domain ('.' :: b))

/-- Python `"."` `.join`. -/
def joinDots (l : List Str) : Str := List.intercalate (str ".") l

/-- Python `s.rsplit(".", maxsplit=2)`. -/
def rsplitDot2 (s : Str) : List Str :=
  let ps := splitOnChar '.' s
  if ps.length ≤ 3 then ps
  else [joinDots (ps.take (ps.length - 2)), ps.getD (ps.length - 2) [],
        ps.getD (ps.length - 1) []]

/-- Extract the TLD from a domain (e.g. `.at`, `.co.at`). -/
def _get_tld (domain : Str) : Str :=
  let parts := rsplitDot2 domain
  if 3 ≤ parts.length
      ∧ parts.getD (parts.length - 2) [] ∈ [str "co", str "or", str "ac", str "gv"] then
    str "." ++ parts.getD (parts.length - 2) [] ++ str "." ++ parts.getD (parts.length - 1) []
  else if 2 ≤ parts.length then str "." ++ parts.getLastD []
  else []

/-- Python `s.rsplit(".", maxsplit=1)[0]` (everything before the last dot;
only used when a dot is present). -/
def rsplitLastDot (s : Str) : Str :=
  joinDots ((splitOnChar '.' s).dropLast)

/-- Domain-word separators of the `[\-._]+` split pattern. -/
def isDomSep (c : Char) : Bool := c = '-' ∨ c = '.' ∨ c = '_'

/-- Score how well restaurant name tokens match the domain.  The float
comparison `len(token)/len(word) > 0.6` is modelled exactly by
`10*len(token) > 6*len(word)` (for the small integer lengths involved, the
double rounding of the quotient and of the literal `0.6` cannot cross this
rational threshold). -/
def _name_matches_domain (name_tokens : List Str) (domain : Str) : Nat :=
  let domain_base := if strContains domain (str ".") then rsplitLastDot domain else domain
  let domain_words := resplitRuns isDomSep domain_base
  name_tokens.foldl
    (fun score token =>
      if token ∈ domain_words then score + 4
      else if token = domain_base then score + 5
      else if strEndsWith domain_base token ∨ strStartsWith domain_base token then score + 3
      else if domain_words.any (fun word =>
          word.length > 2 ∧ strContains word token
            ∧ 10 * token.length > 6 * word.length) then score + 2
      else score)
    0

/-- One web-search result (`href`, `title`, `body` fields, absent modelled
as empty). -/
structure SearchResult where
  href : Str
  title : Str
  body : Str
deriving DecidableEq

/-- The token separators of the name-tokenising split: whitespace, hyphen,
slash, ampersand, apostrophe, plus, dot, comma and parentheses. -/
def isTokSep (c : Char) : Bool :=
  c.isWhitespace ∨ c = '-' ∨ c = '/' ∨ c = '&' ∨ c = Char.ofNat 39 ∨ c = '+'
    ∨ c = '.' ∨ c = ',' ∨ c = '(' ∨ c = ')'

/-- The matcher's stop-word set. -/
def stopWords : List Str :=
  [str "the", str "das", str "der", str "die", str "und", str "and",
   str "von", str "zum", str "zur",
   str "bar", str "cafe", str "café", str "restaurant", str "gasthaus",
   str "gasthof", str "wirtshaus", str "pizzeria", str "trattoria",
   str "ristorante", str "bistro", str "brasserie", str "lokal",
   str "stüberl", str "beisl", str "kantine", str "mensa",
   str "buschenschank", str "heuriger", str "konditorei", str "bäckerei",
   str "graz", str "steiermark"]

/-- The distinctive name tokens of `_pick_best_url`: split the lowercased,
stripped name, drop empties, tokens of ≤ 2 chars and stop words. -/
def nameTokens (restaurant_name : Str) : List Str :=
  let name_lower := pyStrip (pyLower restaurant_name)
  (resplitRuns isTokSep name_lower).filter
    (fun t => t ≠ [] ∧ t.length > 2 ∧ t ∉ stopWords)

/-- The per-result body of the `_pick_best_url` loop: `none` when the result
is skipped (`continue`), `some (score, url)` when it is appended to
`candidates`. -/
def considerResult (parse : Str → Option Str) (name_tokens : List Str)
    (result : SearchResult) : Option (Nat × Str) :=
  let url := result.href
  let title := pyLower result.title
  let snippet := pyLower result.body
  if url = [] ∨ _is_blocked parse url then none
  else
    match parse url with
    | none => none
    | some netloc =>
      let domain := replaceSub (pyLower netloc) (str "www.") []
      let tld := _get_tld domain
      if tld ∈ _SUSPECT_TLDS then none
      else if anySub _NEGATIVE_DOMAIN_WORDS domain then none
      else
        let domain_name_score := _name_matches_domain name_tokens domain
        let title_name_hits := (name_tokens.filter (fun t => strContains title t)).length
        let score := domain_name_score + title_name_hits
          + (if strContains title (str "graz") then 2
             else if strContains snippet (str "graz") then 1 else 0)
          + (if tld ∈ _PREFERRED_TLDS then 2
             else if tld ∈ _ACCEPTABLE_TLDS then 1 else 0)
          + (if anySub _FOOD_SIGNALS title then 1 else 0)
          + (if anySub _FOOD_SIGNALS snippet then 1 else 0)
        let has_name_signal := domain_name_score > 0 ∨ title_name_hits > 0
        let has_location_signal :=
          strContains title (str "graz") ∨ strContains snippet (str "graz")
        if ¬ has_name_signal then
          if name_tokens ≠ [] then none
          else if ¬ has_location_signal then none
          else some (score, url)
        else some (score, url)

/-- Pick the most likely official website from search results.  Python's
stable descending sort by score is `insertionSort` with `b.1 ≤ a.1`. -/
def _pick_best_url (parse : Str → Option Str) (results : List SearchResult)
    (restaurant_name : Str) : Option Str :=
  let name_tokens := nameTokens restaurant_name
  let candidates := results.filterMap (considerResult parse name_tokens)
  if candidates = [] then none
  else
    match candidates.insertionSort (fun a b => b.1 ≤ a.1) with
    | [] => none
    | best :: _ => if best.1 < _MIN_SCORE then none else some best.2

/-- The claim's per-token scoring rules, read off the spec's list in its
stated order: exact word match in the split domain = 4, token equals the
whole unsplit domain base = 5, token a prefix or suffix of the unsplit base
= 3, token a substring covering more than 60 percent of the length of some
domain word = 2; otherwise 0. -/
def specTokenScore (domain token : Str) : Nat :=
  let domain_base := if strContains domain (str ".") then rsplitLastDot domain else domain
  let domain_words := resplitRuns isDomSep domain_base
  if token ∈ domain_words then 4
  else if token = domain_base then 5
  else if strEndsWith domain_base token ∨ strStartsWith domain_base token then 3
  else if domain_words.any (fun word =>
      strContains word token ∧ 10 * token.length > 6 * word.length) then 2
  else 0

theorem foldl_step_eq (f : Nat → Str → Nat) (g : Str → Nat)
    (hf : ∀ acc t, f acc t = acc + g t) :
    ∀ (ts : List Str) (acc : Nat), ts.foldl f acc = acc + (ts.map g).sum := by
  intro ts
  induction ts with
  | nil => intro acc; simp
  | cons t ts ih =>
    intro acc
    rw [List.foldl_cons, hf, ih]
    simp [Nat.add_assoc]

/-- **C5**: the name-vs-domain score is the sum over name tokens of the
claim's per-token contribution: +4 for an exact word match in the split
domain, +5 for a token equal to the whole unsplit domain base, +3 for a
token that is a prefix or suffix of the unsplit base, +2 for a token
covering more than 60 percent of the length of some domain word — the rules
applied in the listed order, first match wins (the source's elif cascade;
its additional `len(word) > 2` filter on the last rule is proved inert). -/
theorem name_token_domain_scoring (name_tokens : List Str) (domain : Str) :
    _name_matches_domain name_tokens domain
      = (name_tokens.map (specTokenScore domain)).sum := by
  unfold _name_matches_domain
  rw [foldl_step_eq _ (specTokenScore domain) ?_]
  · simp
  · intro acc token
    unfold specTokenScore
    by_cases h1 : token ∈ resplitRuns isDomSep
        (if strContains domain (str ".") then rsplitLastDot domain else domain)
    · simp [h1]
    · simp only [h1, if_false]
      by_cases h2 : token = (if strContains domain (str ".") then rsplitLastDot domain else domain)
      · simp [h2]
      · simp only [h2, if_false]
        by_cases h3 : strEndsWith (if strContains domain (str ".") then rsplitLastDot domain else domain) token = true
            ∨ strStartsWith (if strContains domain (str ".") then rsplitLastDot domain else domain) token = true
        · simp [h3]
        · simp only [h3, if_false]
          have key : ∀ w ∈ resplitRuns isDomSep
              (if strContains domain (str ".") then rsplitLastDot domain else domain),
              strContains w token = true → 10 * token.length > 6 * w.length →
              w.length > 2 := by
            intro w hw hc hr
            by_contra hlen
            have hle : token.length ≤ w.length := strContains_length_le _ _ hc
            have heq : w.length ≤ token.length := by omega
            have : token = w := strContains_eq_of_length _ _ hc heq
            exact h1 (this ▸ hw)
          have hany : (resplitRuns isDomSep
              (if strContains domain (str ".") then rsplitLastDot domain else domain)).any
                (fun word => word.length > 2 ∧ strContains word token
                  ∧ 10 * token.length > 6 * word.length)
              = (resplitRuns isDomSep
              (if strContains domain (str ".") then rsplitLastDot domain else domain)).any
                (fun word => strContains word token ∧ 10 * token.length > 6 * word.length) := by
            apply Bool.eq_iff_iff.mpr
            simp only [List.any_eq_true, decide_eq_true_eq]
            constructor
            · rintro ⟨w, hw, _, hc, hr⟩
              exact ⟨w, hw, hc, hr⟩
            · rintro ⟨w, hw, hc, hr⟩
              exact ⟨w, hw, key w hw hc hr, hc, hr⟩
          rw [hany]
          cases (resplitRuns isDomSep
              (if strContains domain (str ".") then rsplitLastDot domain else domain)).any
                (fun word => strContains word token ∧ 10 * token.length > 6 * word.length) <;> simp

/-- Spec step 7's "title/snippet city mention": "graz" occurs in the
lowercased title or snippet. -/
def cityMention (result : SearchResult) : Bool :=
  strContains (pyLower result.title) (str "graz")
    || strContains (pyLower result.body) (str "graz")

/-- Spec step 6-7's "name-match score" of a candidate: the name-vs-domain
score plus the name-token-in-title hits (0 when the URL has no parseable
netloc; such a URL is blocked anyway). -/
def resultNameScore (parse : Str → Option Str) (tokens : List Str)
    (result : SearchResult) : Nat :=
  match parse result.href with
  | none => 0
  | some netloc =>
    let domain := replaceSub (pyLower netloc) (str "www.") []
    _name_matches_domain tokens domain
      + (tokens.filter (fun t => strContains (pyLower result.title) t)).length

/-- The hard skips of spec steps 2-4: empty or blocklisted URL, suspect
TLD, negative-signal domain words. -/
def hardSkipped (parse : Str → Option Str) (result : SearchResult) : Bool :=
  decide (result.href = []) || _is_blocked parse result.href ||
    (match parse result.href with
     | none => false
     | some netloc =>
       let domain := replaceSub (pyLower netloc) (str "www.") []
       decide (_get_tld domain ∈ _SUSPECT_TLDS) || anySub _NEGATIVE_DOMAIN_WORDS domain)

/-- The shape of the relevance gate, abstracted over the scores and
signal flags. -/
theorem gate_aux (dns hits : Nat) (t s : Bool) (tokens : List Str) (v : Nat × Str) :
    (if ¬(dns > 0 ∨ hits > 0) then
       (if tokens ≠ [] then none
        else if ¬(t = true ∨ s = true) then none else some v)
     else some v).isSome = true
    ↔ (0 < dns + hits ∨ (tokens = [] ∧ (t || s) = true)) := by
  by_cases h1 : dns > 0 ∨ hits > 0
  · simp only [h1, not_true_eq_false, if_false, Option.isSome_some, true_iff]
    left
    omega
  · have hz : dns = 0 ∧ hits = 0 := by
      push_neg at h1
      omega
    by_cases h2 : tokens = []
    · subst h2
      cases t <;> cases s <;> simp [h1, hz.1, hz.2]
    · simp [h1, h2, hz.1, hz.2]

/-- **C2**: a search-result candidate survives the per-result loop (is
appended to `candidates`) iff it passes the hard skips AND has a nonzero
name-match score (domain or title) OR — only when the entity produced zero
distinctive name tokens — a title/snippet city mention.  In particular a
candidate with a city mention but no name signal is rejected outright
whenever distinctive tokens exist. -/
theorem relevance_gate_characterisation :
    ∀ (parse : Str → Option Str) (name_tokens : List Str) (result : SearchResult),
      (considerResult parse name_tokens result).isSome = true
      ↔ (hardSkipped parse result = false
         ∧ (0 < resultNameScore parse name_tokens result
            ∨ (name_tokens = [] ∧ cityMention result = true))) := by
  intro parse name_tokens result
  by_cases hb : result.href = [] ∨ _is_blocked parse result.href = true
  · have hskip : hardSkipped parse result = true := by
      rcases hb with hb | hb <;> simp [hardSkipped, hb]
    simp only [considerResult]
    rw [if_pos (by simpa using hb)]
    simp [hskip]
  · push_neg at hb
    obtain ⟨hurl, hnb⟩ := hb
    have hnb' : _is_blocked parse result.href = false := by
      simpa using hnb
    cases hp : parse result.href with
    | none =>
      exfalso
      rw [_is_blocked, hp] at hnb'
      simp at hnb'
    | some netloc =>
      simp only [considerResult]
      rw [if_neg (by simp [hurl, hnb'])]
      rw [hp]
      dsimp only
      by_cases htld : _get_tld (replaceSub (pyLower netloc) (str "www.") []) ∈ _SUSPECT_TLDS
      · have hskip : hardSkipped parse result = true := by
          simp [hardSkipped, hp, htld]
        simp [htld, hskip]
      · by_cases hneg : anySub _NEGATIVE_DOMAIN_WORDS (replaceSub (pyLower netloc) (str "www.") []) = true
        · have hskip : hardSkipped parse result = true := by
            simp [hardSkipped, hp, hneg]
          simp [htld, hneg, hskip]
        · have hskip : hardSkipped parse result = false := by
            simp [hardSkipped, hp, htld, hurl, hnb', hneg]
          have hscore : resultNameScore parse name_tokens result
              = _name_matches_domain name_tokens (replaceSub (pyLower netloc) (str "www.") [])
                + (name_tokens.filter
                    (fun t => strContains (pyLower result.title) t)).length := by
            simp [resultNameScore, hp]
          rw [if_neg htld, if_neg (by simpa using hneg), hskip, hscore]
          rw [show cityMention result
              = (strContains (pyLower result.title) (str "graz")
                 || strContains (pyLower result.body) (str "graz")) from rfl]
          simp only [eq_self_iff_true, true_and]
          exact gate_aux _ _ _ _ name_tokens _

/-- A surviving candidate's URL is the result's href, which is not blocked
and has a parseable netloc. -/
theorem considerResult_href (parse : Str → Option Str) (tokens : List Str)
    (result : SearchResult) (p : Nat × Str)
    (h : considerResult parse tokens result = some p) :
    p.2 = result.href ∧ _is_blocked parse result.href = false
      ∧ (parse result.href).isSome = true := by
  rw [considerResult] at h
  by_cases hb : result.href = [] ∨ _is_blocked parse result.href = true
  · rw [if_pos (by simpa using hb)] at h
    cases h
  · push_neg at hb
    rw [if_neg (by simpa using hb)] at h
    cases hp : parse result.href with
    | none =>
      rw [hp] at h
      cases h
    | some netloc =>
      rw [hp] at h
      dsimp only at h
      refine ⟨?_, by simpa using hb.2, by simp [hp]⟩
      by_cases htld : _get_tld (replaceSub (pyLower netloc) (str "www.") []) ∈ _SUSPECT_TLDS
      · rw [if_pos htld] at h
        cases h
      · rw [if_neg htld] at h
        by_cases hneg : anySub _NEGATIVE_DOMAIN_WORDS (replaceSub (pyLower netloc) (str "www.") []) = true
        · rw [if_pos hneg] at h
          cases h
        · rw [if_neg hneg] at h
          by_cases hns : _name_matches_domain tokens (replaceSub (pyLower netloc) (str "www.") []) > 0
              ∨ (tokens.filter (fun t => strContains (pyLower result.title) t)).length > 0
          · rw [if_neg (not_not_intro hns)] at h
            obtain rfl := Option.some.inj h
            rfl
          · rw [if_pos hns] at h
            by_cases hne : tokens = []
            · rw [if_neg (not_not_intro hne)] at h
              by_cases hls : strContains (pyLower result.title) (str "graz") = true
                  ∨ strContains (pyLower result.body) (str "graz") = true
              · rw [if_neg (not_not_intro hls)] at h
                obtain rfl := Option.some.inj h
                rfl
              · rw [if_pos hls] at h
                cases h
            · rw [if_pos hne] at h
              cases h

/-- A concrete netloc parser for the C10 instance. -/
def c10Parse : Str → Option Str :=
  fun u => if u = str "http://ristorantecorti.at"
    then some (str "ristorantecorti.at") else none

/-- A concrete search result for the C10 instance. -/
def c10Result : SearchResult :=
  { href := str "http://ristorantecorti.at",
    title := str "Ristorante Corti Graz", body := [] }

/-- **C10**: the blocklist check fails closed — a URL whose domain parse
raises is classified blocked — and therefore `_pick_best_url` never returns
a URL whose domain could not be parsed; plus a concrete run returning a
parseable candidate. -/
theorem blocklist_fails_closed :
    (∀ (parse : Str → Option Str) (url : Str),
        parse url = none → _is_blocked parse url = true)
  ∧ (∀ (parse : Str → Option Str) (results : List SearchResult) (name url : Str),
        _pick_best_url parse results name = some url → parse url ≠ none)
  ∧ _pick_best_url c10Parse [c10Result] (str "Corti")
      = some (str "http://ristorantecorti.at") := by
  refine ⟨?_, ?_, by decide⟩
  · intro parse url h
    rw [_is_blocked, h]
  · intro parse results name url h
    simp only [_pick_best_url] at h
    split at h
    · cases h
    · split at h
      · cases h
      · rename_i best rest hsort
        split at h
        · cases h
        · obtain rfl : best.2 = url := by
            simpa using h
          have hmem : best ∈ results.filterMap (considerResult parse (nameTokens name)) := by
            have hin : best ∈ (results.filterMap
                (considerResult parse (nameTokens name))).insertionSort
                  (fun a b => b.1 ≤ a.1) := by
              rw [hsort]
              exact List.mem_cons_self _ _
            exact (List.perm_insertionSort _ _).subset hin
          obtain ⟨r, _, hcons⟩ := List.mem_filterMap.mp hmem
          obtain ⟨heq, _, hparse⟩ := considerResult_href parse _ r best hcons
          rw [heq]
          intro hnone
          rw [hnone] at hparse
          cases hparse

/-! ## JSON values, as `json.loads` yields them

Numbers carry their Python `str()` rendering (no arithmetic is done on
them).  `str()` of containers is abbreviated; only its truthiness/shape
matters to the modelled code paths. -/

mutual

inductive Json where
  | null
  | bool (b : Bool)
  | str (s : Str)
  | num (rep : Str)
  | arr (elems : JsonList)
  | obj (fields : JsonFields)

inductive JsonList where
  | nil
  | cons (head : Json) (tail : JsonList)

inductive JsonFields where
  | fnil
  | fcons (key : String) (value : Json) (tail : JsonFields)

end

/-- The elements of a JSON array as a plain list. -/
def JsonList.toList : JsonList → List Json
  | .nil => []
  | .cons j rest => j :: rest.toList

/-- Python `d.get(k)` on a JSON object. -/
def jGet : JsonFields → String → Option Json
  | .fnil, _ => none
  | .fcons k' v rest, k => if k' = k then some v else jGet rest k

mutual

/-- A fuel bound that dominates the nesting depth of a JSON value. -/
def jFuel : Json → Nat
  | .null => 1
  | .bool _ => 1
  | .str _ => 1
  | .num _ => 1
  | .arr l => 1 + jFuelList l
  | .obj f => 1 + jFuelFields f

def jFuelList : JsonList → Nat
  | .nil => 0
  | .cons j rest => jFuel j + jFuelList rest

def jFuelFields : JsonFields → Nat
  | .fnil => 0
  | .fcons _ j rest => jFuel j + jFuelFields rest

end

/-- Build a JSON object from a key-value list. -/
def jobj (l : List (String × Json)) : Json :=
  .obj (l.foldr (fun p acc => .fcons p.1 p.2 acc) .fnil)

/-- Build a JSON array from a list. -/
def jarr (l : List Json) : Json :=
  .arr (l.foldr .cons .nil)

/-- Python `str(v)` (containers abbreviated). -/
def pyStr : Json → Str
  | .str s => s
  | .num rep => rep
  | .bool true => str "True"
  | .bool false => str "False"
  | .null => str "None"
  | .arr _ => str "[...]"
  | .obj _ => str "\x7b...\x7d"

/-- Python truthiness of a JSON value. -/
def jTruthy : Json → Bool
  | .null => false
  | .bool b => b
  | .str s => s ≠ []
  | .num rep => rep ≠ str "0" && rep ≠ str "0.0"
  | .arr .nil => false
  | .arr (.cons _ _) => true
  | .obj .fnil => false
  | .obj (.fcons _ _ _) => true

/-- `obj.get("@type", "") == t` (a non-string `@type` never compares equal). -/
def jTypeIs (fields : JsonFields) (t : String) : Bool :=
  match jGet fields "@type" with
  | some (.str s) => s = str t
  | _ => false

/-- The children iterated by `for child in obj.get(key, [])`: the elements
when the value is a list, nothing otherwise (iterating a non-list yields no
dict children to walk, or raises — both produce no items). -/
def jChildList : Option Json → List Json
  | some (.arr l) => l.toList
  | _ => []

/-! ## `scraper/websites.py` — menu extraction cascade -/

/-- Recursively walk a JSON-LD structure collecting menu items, in the
source's DFS append order.  `fuel` bounds the recursion depth (Python's
recursion is bounded by its stack); every theorem below holds for every
fuel, and concrete pages are walked with fuel `sizeOf`, which always
suffices. -/
def _walk_jsonld : Nat → Json → Str → List MenuItemD
  | 0, _, _ => []
  | fuel + 1, obj, category =>
    match obj with
    | .obj fields =>
      if jTypeIs fields "MenuSection" then
        let section_name :=
          match jGet fields "name" with
          | some j => pyStr j
          | none => category
        (jChildList (jGet fields "hasMenuItem")).flatMap
          (fun child => _walk_jsonld fuel child section_name)
        ++ (jChildList (jGet fields "hasMenuSection")).flatMap
          (fun child => _walk_jsonld fuel child section_name)
      else if jTypeIs fields "MenuItem" then
        let name :=
          match jGet fields "name" with
          | some (.str s) => pyStrip s
          | _ => []
        if name = [] then []
        else
          let offers := (jGet fields "offers").getD (.obj .fnil)
          let price :=
            match offers with
            | .obj ofields =>
              let p := pyStr ((jGet ofields "price").getD (.str []))
              if p ≠ [] then
                let currency := (jGet ofields "priceCurrency").getD (.str (str "€"))
                if jTruthy currency then pyStr currency ++ p else p
              else p
            | _ => []
          [{ name := name, price := price, category := category }]
      else if jTypeIs fields "Menu" then
        (jChildList (jGet fields "hasMenuSection")).flatMap
          (fun child => _walk_jsonld fuel child category)
        ++ (jChildList (jGet fields "hasMenuItem")).flatMap
          (fun child => _walk_jsonld fuel child category)
      else
        [("hasMenu" : String), "menu", "hasMenuSection", "hasMenuItem"].flatMap
          (fun key =>
            match jGet fields key with
            | some (.arr l) => l.toList.flatMap (fun child => _walk_jsonld fuel child category)
            | some (.obj f) => _walk_jsonld fuel (.obj f) category
            | _ => [])
    | _ => []

/-- One block-level element of the parsed page, with its
`get_text(separator=" ", strip=True)` result (BeautifulSoup is the
collaborator boundary). -/
structure HtmlLine where
  tag : String
  text : Str
deriving DecidableEq

/-- One anchor with `href` attribute and its stripped visible text. -/
structure Anchor where
  href : Str
  text : Str
deriving DecidableEq

/-- A parsed page, as the BeautifulSoup collaborator exposes it to the
extraction code: the parsed JSON of each `ld+json` script (`none` for a
parse failure), the document-order stream of block elements, the
meta-description content, the paragraph texts and the anchors. -/
structure Page where
  jsonldScripts : List (Option Json)
  elements : List HtmlLine
  metaDescription : Option Str
  paragraphs : List Str
  anchors : List Anchor

/-- Parse Schema.org JSON-LD blocks for menu items. -/
def _extract_from_jsonld (soup : Page) : List MenuItemD :=
  soup.jsonldScripts.flatMap (fun script =>
    match script with
    | none => []
    | some data =>
      (match data with
       | .arr l => l.toList
       | j => [j]).flatMap (fun obj => _walk_jsonld (jFuel obj) obj (str "Other")))

/-! ### The `_PRICE_RE` regex

A backtracking matcher for the price pattern.  A matcher maps a suffix to
its possible remainders in the regex engine's preference order (greedy
first, alternatives in pattern order); the first remainder of the
concatenated alternatives is Python's match. -/

/-- Greedy-first options of a whitespace star. -/
def wsStarOpts (s : Str) : List Str :=
  let n := (s.takeWhile Char.isWhitespace).length
  (List.range (n + 1)).map (fun i => s.drop (n - i))

/-- Greedy-first options of one-or-more digits. -/
def digitsPlusOpts (s : Str) : List Str :=
  let n := (s.takeWhile Char.isDigit).length
  (List.range n).map (fun i => s.drop (n - i))

/-- Options of the optional fraction group (separator then 1-2 digits),
greedy: 2 digits, then 1, then skipping the group. -/
def fracOpts (s : Str) : List Str :=
  (match s with
   | c :: rest =>
     if c = '.' ∨ c = ',' then
       let m := (rest.takeWhile Char.isDigit).length
       (if 2 ≤ m then [rest.drop 2] else []) ++ (if 1 ≤ m then [rest.drop 1] else [])
     else []
   | [] => []) ++ [s]

/-- A single literal character. -/
def charOpt (c : Char) (s : Str) : List Str :=
  match s with
  | x :: xs => if x = c then [xs] else []
  | [] => []

/-- A single character, case-insensitively (for `EUR` with IGNORECASE). -/
def charOptCI (c : Char) (s : Str) : List Str :=
  match s with
  | x :: xs => if x.toLower = c then [xs] else []
  | [] => []

/-- Sequencing of matchers (preference order preserved). -/
def seqB (f g : Str → List Str) : Str → List Str := fun s => (f s).flatMap g

/-- First alternative: euro sign, whitespace, digits, optional fraction. -/
def priceAlt1 : Str → List Str :=
  seqB (charOpt '€') (seqB wsStarOpts (seqB digitsPlusOpts fracOpts))

/-- Second alternative: digits, optional fraction, whitespace, euro sign. -/
def priceAlt2 : Str → List Str :=
  seqB digitsPlusOpts (seqB fracOpts (seqB wsStarOpts (charOpt '€')))

/-- Third alternative: `EUR`, whitespace, digits, optional fraction. -/
def priceAlt3 : Str → List Str :=
  seqB (charOptCI 'e') (seqB (charOptCI 'u') (seqB (charOptCI 'r')
    (seqB wsStarOpts (seqB digitsPlusOpts fracOpts))))

/-- Length of the price match starting exactly here, if any. -/
def priceMatchAt (s : Str) : Option Nat :=
  (priceAlt1 s ++ priceAlt2 s ++ priceAlt3 s).head?.map
    (fun rem => s.length - rem.length)

/-- Leftmost price match: `(before, match, after)`. -/
def priceSearch : Str → Option (Str × Str × Str)
  | [] =>
    match priceMatchAt [] with
    | some _ => some ([], [], [])
    | none => none
  | c :: cs =>
    match priceMatchAt (c :: cs) with
    | some len => some ([], (c :: cs).take len, (c :: cs).drop len)
    | none => (priceSearch cs).map (fun r => (c :: r.1, r.2.1, r.2.2))

/-- Find the first euro-price in `text` (`_extract_price`). -/
def _extract_price (text : Str) : Option Str :=
  (priceSearch text).map (fun r => pyStrip r.2.1)

/-- `_PRICE_RE.sub("", s)`: remove all non-overlapping matches left to
right.  Every match is nonempty, so `s.length` fuel suffices. -/
def priceSubGo : Nat → Str → Str
  | 0, s => s
  | fuel + 1, s =>
    match priceSearch s with
    | none => s
    | some r => r.1 ++ priceSubGo fuel r.2.2

/-- `_PRICE_RE.sub("", s)`. -/
def priceSubAll (s : Str) : Str := priceSubGo s.length s

/-! ### Heuristic HTML walk -/

def _CATEGORY_HINTS : List (String × List Str) :=
  [("Starter", [str "starter", str "vorspeise", str "antipast", str "appetizer",
     str "entrée", str "small plate"]),
   ("Main", [str "main", str "hauptgericht", str "hauptspeise", str "entrée",
     str "second", str "piatti", str "gericht"]),
   ("Dessert", [str "dessert", str "nachspeise", str "süß", str "dolci",
     str "sweet", str "nachtisch"]),
   ("Drink", [str "drink", str "getränk", str "beverage", str "cocktail",
     str "wein", str "wine", str "beer", str "bier", str "saft", str "juice",
     str "kaffee", str "coffee"]),
   ("Pizza", [str "pizza"]),
   ("Pasta", [str "pasta", str "nudel"]),
   ("Sushi", [str "sushi", str "maki", str "nigiri", str "sashimi"]),
   ("Soup", [str "soup", str "suppe"]),
   ("Salad", [str "salad", str "salat"]),
   ("Burger", [str "burger"])]

/-- Map a heading string to a menu category (first hinted category whose
keyword occurs, in the table's order). -/
def _infer_category (heading_text : Str) : Str :=
  let lower := pyLower heading_text
  match _CATEGORY_HINTS.find? (fun e => e.2.any (fun kw => strContains lower kw)) with
  | some e => str e.1
  | none => str "Other"

/-- The separator punctuation of the name-cleanup patterns: dot, hyphen,
en dash, em dash. -/
def isSepPunct (c : Char) : Bool := c = '.' ∨ c = '-' ∨ c = '–' ∨ c = '—'

/-- Python re.sub of the trailing separator-run pattern (separators then
whitespace at the end of the string). -/
def stripTrailingSeps (name : Str) : Str :=
  let r1 := name.reverse.dropWhile Char.isWhitespace
  match r1 with
  | c :: _ => if isSepPunct c then (r1.dropWhile isSepPunct).reverse else name
  | [] => name

/-- Python re.sub of the leading whitespace-then-separator-run pattern. -/
def stripLeadingSeps (name : Str) : Str :=
  let s1 := name.dropWhile Char.isWhitespace
  match s1 with
  | c :: _ => if isSepPunct c then s1.dropWhile isSepPunct else name
  | [] => name

def headingTags : List String := ["h1", "h2", "h3", "h4"]

/-- The heading/sibling walk of `_extract_from_html_heuristic`, threading
the current category. -/
def heurGo : Str → List HtmlLine → List MenuItemD
  | _, [] => []
  | current_category, element :: rest =>
    let text := element.text
    if text = [] ∨ text.length < 3 then heurGo current_category rest
    else if element.tag ∈ headingTags then heurGo (_infer_category text) rest
    else if text.length > 200 then heurGo current_category rest
    else
      match _extract_price text with
      | none => heurGo current_category rest
      | some price =>
        let name := pyStrip (priceSubAll text)
        let name := pyStrip (stripTrailingSeps name)
        let name := pyStrip (stripLeadingSeps name)
        if name = [] ∨ name.length < 3 ∨ name.length > 120 then
          heurGo current_category rest
        else
          { name := name, price := price, category := current_category }
            :: heurGo current_category rest

/-- Deduplicate menu items by lowercased name, keeping the first. -/
def dedupItemsGo (seen : List Str) : List MenuItemD → List MenuItemD
  | [] => []
  | item :: rest =>
    let key := pyLower item.name
    if key ∈ seen then dedupItemsGo seen rest
    else item :: dedupItemsGo (key :: seen) rest

/-- Walk headings and siblings to find dish-name / price pairs. -/
def _extract_from_html_heuristic (soup : Page) : List MenuItemD :=
  dedupItemsGo [] (heurGo (str "Other") soup.elements)

/-- The extraction cascade: JSON-LD first; the heuristic walk runs only
when JSON-LD yielded nothing. -/
def _extract_menu_items_from_soup (soup : Page) : List MenuItemD :=
  let items := _extract_from_jsonld soup
  if items ≠ [] then items
  else _extract_from_html_heuristic soup

/-! ### Summary and menu-link discovery -/

/-- Extract a short description: meta description (≥ 20 chars, truncated to
300), else the first of the first 10 paragraphs with ≥ 40 chars. -/
def _extract_summary (soup : Page) : Option Str :=
  let meta :=
    match soup.metaDescription with
    | some content =>
      if content ≠ [] then
        let desc := pyStrip content
        if 20 ≤ desc.length then some (desc.take 300) else none
      else none
    | none => none
  match meta with
  | some d => some d
  | none =>
    ((soup.paragraphs.take 10).find? (fun text => 40 ≤ text.length)).map
      (fun text => text.take 300)

def _MENU_KEYWORDS : List Str :=
  [str "menu", str "speisekarte", str "karte", str "gerichte", str "dishes",
   str "speisen"]

def fileExts : List Str :=
  [str ".pdf", str ".jpg", str ".jpeg", str ".png", str ".webp"]

/-- Modelled collaborator `urllib.parse.urljoin`: absolute hrefs kept,
relative ones appended to the base.  The claims depend only on the presence
and identity of the joined URL. -/
def urljoin (base url : Str) : Str :=
  if strContains url (str "://") then url else base ++ url

/-- The absolute URL of the first HTML (non-file) menu-like link. -/
def _find_menu_url (soup : Page) (base_url : Str) : Option Str :=
  soup.anchors.findSome? (fun a =>
    let href := a.href
    let text := pyLower a.text
    let combined := pyLower href ++ str " " ++ text
    if _MENU_KEYWORDS.any (fun kw => strContains combined kw) then
      if fileExts.any (fun ext =>
          strEndsWith ((pyLower href).takeWhile (fun c => c ≠ '?')) ext) then
        none
      else some (urljoin base_url href)
    else none)

/-- The absolute URL of the first PDF/image menu link. -/
def _find_menu_file_url (soup : Page) (base_url : Str) : Option Str :=
  soup.anchors.findSome? (fun a =>
    let href := a.href
    let text := pyLower a.text
    let combined := pyLower href ++ str " " ++ text
    if _MENU_KEYWORDS.any (fun kw => strContains combined kw) then
      let clean_href := (pyLower href).takeWhile (fun c => c ≠ '?')
      if fileExts.any (fun ext => strEndsWith clean_href ext) then
        some (urljoin base_url href)
      else none
    else none)

/-! ### `scrape_restaurant_website` -/

/-- The result dict of `scrape_restaurant_website`, instrumented with the
cascade's invocation facts (`heurHomepage`: the heuristic walk ran on the
homepage, i.e. homepage JSON-LD yielded nothing; `preVisionCount`: the item
count when the vision condition was tested; `visionInvoked`: the vision
extraction was called). -/
structure ScrapeOutcome where
  summary : Option Str
  menu_items : List MenuItemD
  menu_url : Option Str
  menu_file_url : Option Str
  heurHomepage : Bool
  preVisionCount : Nat
  visionInvoked : Bool
deriving DecidableEq

/-- Fetch a restaurant website and extract summary + menu data.  `fetch`
models `_fetch_html` (per-URL, `none` on failure/non-HTML); `vision` models
`extract_menu_from_file_url` (`none` when it raises — the items are then
kept unchanged). -/
def scrape_restaurant_website (fetch : Str → Option Page)
    (vision : Str → Option (List MenuItemD)) (use_vision : Bool)
    (url : Str) : Option ScrapeOutcome :=
  match fetch url with
  | none => none
  | some soup =>
    let summary := _extract_summary soup
    let menu_url := _find_menu_url soup url
    let menu_file_url := _find_menu_file_url soup url
    let menu_items := _extract_menu_items_from_soup soup
    let menu_items1 :=
      match menu_url with
      | some mu =>
        if mu ≠ [] ∧ mu ≠ url ∧ menu_items.length < 3 then
          match fetch mu with
          | some menu_soup =>
            let menu_page_items := _extract_menu_items_from_soup menu_soup
            if menu_page_items.length > menu_items.length then menu_page_items
            else menu_items
          | none => menu_items
        else menu_items
      | none => menu_items
    let visionCond := use_vision && decide (menu_items1.length < 3)
      && optTruthy menu_file_url
    let menu_items2 :=
      if visionCond then
        match menu_file_url, vision (menu_file_url.getD []) with
        | some _, some vision_items =>
          if vision_items.length > menu_items1.length then vision_items
          else menu_items1
        | _, _ => menu_items1
      else menu_items1
    some { summary := summary
           menu_items := menu_items2
           menu_url := if optTruthy menu_url then menu_url else menu_file_url
           menu_file_url := menu_file_url
           heurHomepage := decide (_extract_from_jsonld soup = [])
           preVisionCount := menu_items1.length
           visionInvoked := visionCond }

/-! ## `scraper/menu_vision.py` — LLM response validation -/

/-- The validation loop of `_parse_json_response` over the parsed JSON
value (fence stripping and `json.loads` are the collaborator boundary):
non-list data is rejected; per entry, non-dicts are skipped, the name is
stringified and stripped and must be at least 2 chars, then name, price and
category are truncated to 200/50/50 chars. -/
def visionValidateItems (data : Json) : List MenuItemD :=
  match data with
  | .arr entries =>
    entries.toList.filterMap (fun entry =>
      match entry with
      | .obj fields =>
        let name := pyStrip (pyStr ((jGet fields "name").getD (.str [])))
        if name = [] ∨ name.length < 2 then none
        else some
          { name := name.take 200
            price := (pyStr ((jGet fields "price").getD (.str []))).take 50
            category := (pyStr ((jGet fields "category").getD (.str (str "Other")))).take 50 }
      | _ => none)
  | _ => []

/-! ## `enrich_restaurants` — per-restaurant merge (no-Playwright path) -/

/-- The merge of one scrape result into a restaurant record (the loop body
of `enrich_restaurants` after a successful scrape, with the Playwright
browser not launched). -/
def enrichStep (restaurant : Restaurant) (result : ScrapeOutcome) : Restaurant :=
  let r :=
    if optTruthy result.summary ∧ ¬ optTruthy restaurant.summary then
      { restaurant with summary := result.summary }
    else restaurant
  let r :=
    match result.menu_url with
    | some mu => if mu ≠ [] then { r with menu_url := some mu } else r
    | none => r
  let r :=
    if result.menu_items ≠ [] then { r with menu_items := result.menu_items }
    else r
  let r :=
    if (str "website") ∉ r.data_sources then
      { r with data_sources := r.data_sources ++ [str "website"] }
    else r
  r

/-- One iteration of the `enrich_restaurants` loop for one restaurant:
skipped without a truthy `http(s)` website, unchanged when the scrape
fails, merged otherwise. -/
def enrichOne (fetch : Str → Option Page)
    (vision : Str → Option (List MenuItemD)) (use_vision : Bool)
    (restaurant : Restaurant) : Restaurant :=
  match restaurant.website with
  | none => restaurant
  | some url =>
    if url = [] then restaurant
    else if ¬ (strStartsWith url (str "http://") = true
               ∨ strStartsWith url (str "https://") = true) then restaurant
    else
      match scrape_restaurant_website fetch vision use_vision url with
      | none => restaurant
      | some result => enrichStep restaurant result

theorem mem_dedupItemsGo (l : List MenuItemD) :
    ∀ (seen : List Str) (item : MenuItemD), item ∈ dedupItemsGo seen l → item ∈ l := by
  induction l with
  | nil => intro seen item h; simp [dedupItemsGo] at h
  | cons x rest ih =>
    intro seen item h
    rw [dedupItemsGo] at h
    split at h
    · exact List.mem_cons_of_mem _ (ih _ _ h)
    · rcases List.mem_cons.mp h with rfl | h
      · exact List.mem_cons_self _ _
      · exact List.mem_cons_of_mem _ (ih _ _ h)

theorem heurGo_name_bounds (els : List HtmlLine) :
    ∀ (cat : Str) (item : MenuItemD), item ∈ heurGo cat els →
      3 ≤ item.name.length ∧ item.name.length ≤ 120 := by
  induction els with
  | nil => intro cat item h; simp [heurGo] at h
  | cons e rest ih =>
    intro cat item h
    rw [heurGo] at h
    split at h
    · exact ih _ _ h
    · split at h
      · exact ih _ _ h
      · split at h
        · exact ih _ _ h
        · split at h
          · exact ih _ _ h
          · rename_i price hprice
            dsimp only at h
            split at h
            · exact ih _ _ h
            · rename_i hguard
              push_neg at hguard
              rcases List.mem_cons.mp h with rfl | h
              · dsimp only
                have h2 := hguard.2.1
                have h3 := hguard.2.2
                exact ⟨by omega, by omega⟩
              · exact ih _ _ h

theorem extract_heuristic_name_bounds (soup : Page) (item : MenuItemD)
    (h : item ∈ _extract_from_html_heuristic soup) :
    3 ≤ item.name.length ∧ item.name.length ≤ 120 :=
  heurGo_name_bounds _ _ _ (mem_dedupItemsGo _ _ _ h)

theorem visionValidateItems_bounds (data : Json) (item : MenuItemD)
    (h : item ∈ visionValidateItems data) :
    2 ≤ item.name.length ∧ item.name.length ≤ 200
      ∧ item.price.length ≤ 50 ∧ item.category.length ≤ 50 := by
  unfold visionValidateItems at h
  cases data with
  | arr entries =>
    obtain ⟨entry, _, he⟩ := List.mem_filterMap.mp h
    cases entry with
    | obj fields =>
      dsimp only at he
      split at he
      · cases he
      · rename_i hguard
        push_neg at hguard
        obtain rfl := Option.some.inj he
        refine ⟨?_, ?_, ?_, ?_⟩ <;>
          simp only [List.length_take] <;> omega
    | null => cases he
    | bool b => cases he
    | str s => cases he
    | num r => cases he
    | arr l => cases he
  | null => simp at h
  | bool b => simp at h
  | str s => simp at h
  | num r => simp at h
  | obj f => simp at h

theorem walk_jsonld_name_ne :
    ∀ (fuel : Nat) (obj : Json) (category : Str) (item : MenuItemD),
      item ∈ _walk_jsonld fuel obj category → item.name ≠ [] := by
  intro fuel
  induction fuel with
  | zero => intro obj category item h; simp [_walk_jsonld] at h
  | succ n ih =>
    intro obj category item h
    cases obj with
    | null => simp [_walk_jsonld] at h
    | bool b => simp [_walk_jsonld] at h
    | str s => simp [_walk_jsonld] at h
    | num r => simp [_walk_jsonld] at h
    | arr l => simp [_walk_jsonld] at h
    | obj fields =>
      rw [_walk_jsonld] at h
      dsimp only at h
      split at h
      · rcases List.mem_append.mp h with h | h <;>
          ( obtain ⟨child, _, hc⟩ := List.mem_flatMap.mp h
            exact ih child _ item hc )
      · split at h
        · split at h
          · cases h
          · rename_i hname
            rcases List.mem_cons.mp h with rfl | h
            · exact hname
            · cases h
        · split at h
          · rcases List.mem_append.mp h with h | h <;>
              ( obtain ⟨child, _, hc⟩ := List.mem_flatMap.mp h
                exact ih child _ item hc )
          · obtain ⟨key, _, hmem⟩ := List.mem_flatMap.mp h
            cases hget : jGet fields key with
            | none => rw [hget] at hmem; cases hmem
            | some j =>
              rw [hget] at hmem
              cases j with
              | arr l =>
                obtain ⟨child, _, hc⟩ := List.mem_flatMap.mp hmem
                exact ih child _ item hc
              | obj f => exact ih _ _ item hmem
              | null => cases hmem
              | bool b => cases hmem
              | str s => cases hmem
              | num r => cases hmem

theorem extract_jsonld_name_ne (soup : Page) (item : MenuItemD)
    (h : item ∈ _extract_from_jsonld soup) : item.name ≠ [] := by
  unfold _extract_from_jsonld at h
  obtain ⟨script, _, hs⟩ := List.mem_flatMap.mp h
  cases script with
  | none => cases hs
  | some data =>
    dsimp only at hs
    obtain ⟨obj, _, ho⟩ := List.mem_flatMap.mp hs
    exact walk_jsonld_name_ne _ _ _ _ ho


theorem extract_menu_items_of_jsonld_ne (soup : Page)
    (hne : _extract_from_jsonld soup ≠ []) :
    _extract_menu_items_from_soup soup = _extract_from_jsonld soup := by
  unfold _extract_menu_items_from_soup
  simp [hne]

/-- **C1 amended**: whenever homepage JSON-LD yields at least one item, the
heuristic HTML walk is not invoked on that page; when it yields at least 3
items the vision fallback is never invoked; and the vision fallback is
invoked only when the vision flag is set, fewer than 3 items had been
collected, and a menu-file link exists. -/
theorem cascade_gating (fetch : Str → Option Page)
    (vision : Str → Option (List MenuItemD)) (use_vision : Bool) (url : Str)
    (hp : Page) (out : ScrapeOutcome)
    (hfetch : fetch url = some hp)
    (hres : scrape_restaurant_website fetch vision use_vision url = some out) :
    (_extract_from_jsonld hp ≠ [] → out.heurHomepage = false)
  ∧ (3 ≤ (_extract_from_jsonld hp).length → out.visionInvoked = false)
  ∧ (out.visionInvoked = true →
      use_vision = true ∧ out.preVisionCount < 3 ∧ optTruthy out.menu_file_url = true) := by
  unfold scrape_restaurant_website at hres
  rw [hfetch] at hres
  dsimp only at hres
  obtain rfl := Option.some.inj hres
  refine ⟨?_, ?_, ?_⟩
  · intro hne
    dsimp only
    simp [hne]
  · intro h3
    have hne : _extract_from_jsonld hp ≠ [] := by
      intro hnil
      rw [hnil] at h3
      simp at h3
    have hmenu : _extract_menu_items_from_soup hp = _extract_from_jsonld hp :=
      extract_menu_items_of_jsonld_ne hp hne
    dsimp only
    rw [hmenu]
    cases hmu : _find_menu_url hp url with
    | none =>
      dsimp only
      have hd : decide ((_extract_from_jsonld hp).length < 3) = false := by
        simp
        omega
      simp [hd]
    | some mu =>
      dsimp only
      have hcond : ¬(mu ≠ [] ∧ mu ≠ url ∧ (_extract_from_jsonld hp).length < 3) := by
        rintro ⟨-, -, hl⟩
        omega
      rw [if_neg hcond]
      have hd : decide ((_extract_from_jsonld hp).length < 3) = false := by
        simp
        omega
      simp [hd]
  · intro hv
    dsimp only at hv ⊢
    simp only [Bool.and_eq_true] at hv
    exact ⟨hv.1.1, by simpa using of_decide_eq_true hv.1.2, hv.2⟩


def c1Script : Json :=
  jobj [("@type", .str (str "MenuItem")), ("name", .str (str "Pizza Margherita"))]

def c1Page : Page :=
  { jsonldScripts := [some c1Script], elements := [],
    metaDescription := none, paragraphs := [],
    anchors := [{ href := str "menu.pdf", text := str "Speisekarte" }] }

def c1Fetch : Str → Option Page := fun _ => some c1Page

def c1Vision : Str → Option (List MenuItemD) :=
  fun _ => some [{ name := str "Dish A", price := str "€5", category := str "Other" },
                 { name := str "Dish B", price := str "€6", category := str "Other" },
                 { name := str "Dish C", price := str "€7", category := str "Other" }]

/-- Counterexample to **C1** as stated: a page whose JSON-LD yields exactly
one menu item, with a PDF menu link — the vision fallback IS invoked for
the entity. -/
theorem cascade_vision_cex :
    (_extract_from_jsonld c1Page).length = 1
  ∧ (scrape_restaurant_website c1Fetch c1Vision true (str "http://pizzeria.example")).map
      (fun out => out.visionInvoked) = some true := by
  exact ⟨by decide, by decide⟩

def c1Out : ScrapeOutcome :=
  { summary := none
    menu_items := [{ name := str "Dish A", price := str "€5", category := str "Other" },
                   { name := str "Dish B", price := str "€6", category := str "Other" },
                   { name := str "Dish C", price := str "€7", category := str "Other" }]
    menu_url := some (str "http://pizzeria.examplemenu.pdf")
    menu_file_url := some (str "http://pizzeria.examplemenu.pdf")
    heurHomepage := false
    preVisionCount := 1
    visionInvoked := true }

/-- Witness for **C1 amended**, discharging its hypotheses at the concrete
page `c1Page` and outcome `c1Out`. -/
theorem cascade_gating_witness :
    (_extract_from_jsonld c1Page ≠ [] → c1Out.heurHomepage = false)
  ∧ (3 ≤ (_extract_from_jsonld c1Page).length → c1Out.visionInvoked = false)
  ∧ (c1Out.visionInvoked = true →
      true = true ∧ c1Out.preVisionCount < 3 ∧ optTruthy c1Out.menu_file_url = true) :=
  cascade_gating c1Fetch c1Vision true (str "http://pizzeria.example") c1Page c1Out
    rfl (by decide)

def c6Price : Str :=
  str "€9999999999999999999999999999999999999999999999999999999999.99"

def c6Script : Json :=
  jobj [("@type", .str (str "MenuItem")), ("name", .str (str "X")),
        ("offers", jobj
          [("price",
            .str (str "9999999999999999999999999999999999999999999999999999999999.99")),
           ("priceCurrency", .str (str "€"))])]

def c6Page : Page :=
  { jsonldScripts := [some c6Script], elements := [], metaDescription := none,
    paragraphs := [], anchors := [] }

/-- Counterexample to **C6** as stated: a JSON-LD `MenuItem` named `"X"`
(one char after trimming, below the claimed 2-char minimum) whose assembled
price text has 62 characters (above the claimed 50-char cap) is kept
verbatim by the structured-data strategy. -/
theorem menu_item_bounds_cex :
    _extract_from_jsonld c6Page
      = [{ name := str "X", price := c6Price, category := str "Other" }]
  ∧ (pyStrip (str "X")).length < 2
  ∧ 50 < c6Price.length := ⟨by decide, by decide, by decide⟩

/-- **C6 amended**: the per-strategy MenuItem field bounds the code actually
enforces — vision-validated items have stored names of 2-200 chars and
price/category texts of at most 50 chars; heuristic items have names of
3-120 chars; JSON-LD items only have a nonempty (already stripped) name,
with no upper bound on name or price length. -/
theorem menu_item_field_bounds :
    (∀ data item, item ∈ visionValidateItems data →
        2 ≤ item.name.length ∧ item.name.length ≤ 200
          ∧ item.price.length ≤ 50 ∧ item.category.length ≤ 50)
  ∧ (∀ soup item, item ∈ _extract_from_html_heuristic soup →
        3 ≤ item.name.length ∧ item.name.length ≤ 120)
  ∧ (∀ soup item, item ∈ _extract_from_jsonld soup → item.name ≠ []) :=
  ⟨visionValidateItems_bounds, extract_heuristic_name_bounds, extract_jsonld_name_ne⟩

def c9Page : Page :=
  { jsonldScripts := [], elements := [],
    metaDescription := some (str "A cozy family-run pizzeria in the heart of Graz."),
    paragraphs := [], anchors := [] }

def c9Fetch : Str → Option Page := fun _ => some c9Page

def c9Restaurant : Restaurant :=
  { raw_to_restaurant c8Element with
      summary := some (str "Hand-written summary."),
      website := some (str "http://pizzeria.example") }

theorem enrichStep_summary (r : Restaurant) (res : ScrapeOutcome) :
    (enrichStep r res).summary
      = if optTruthy res.summary ∧ ¬ optTruthy r.summary then res.summary
        else r.summary := by
  simp only [enrichStep]
  cases res.menu_url <;> dsimp only <;> split_ifs <;> rfl

/-- **C9**: enrichment never overwrites an existing (truthy) summary — it
stays exactly as it was — and any change to the summary field implies the
record had no truthy summary before; with a concrete preserved-summary
run. -/
theorem enrich_summary_frame :
    (∀ fetch vision uv r, optTruthy r.summary = true →
        (enrichOne fetch vision uv r).summary = r.summary)
  ∧ (∀ fetch vision uv r,
        (enrichOne fetch vision uv r).summary ≠ r.summary →
        optTruthy r.summary = false)
  ∧ (enrichOne c9Fetch (fun _ => none) false c9Restaurant).summary
      = some (str "Hand-written summary.") := by
  have hmain : ∀ fetch vision uv r, optTruthy r.summary = true →
      (enrichOne fetch vision uv r).summary = r.summary := by
    intro fetch vision uv r hs
    unfold enrichOne
    cases hw : r.website with
    | none => rfl
    | some u =>
      dsimp only
      split_ifs
      · rfl
      · cases hscrape : scrape_restaurant_website fetch vision uv u with
        | none => rfl
        | some res =>
          dsimp only
          rw [enrichStep_summary, if_neg]
          rintro ⟨-, hns⟩
          exact hns (by simp [hs])
      · rfl
  refine ⟨hmain, ?_, ?_⟩
  · intro fetch vision uv r h
    cases hs : optTruthy r.summary
    · rfl
    · exact absurd (hmain fetch vision uv r hs) h
  · rw [hmain c9Fetch (fun _ => none) false c9Restaurant (by decide)]
    rfl

end RestaurantsRag
